import Mathlib

/-!
Verification of the sector-addressing and record-location core of the
ext2 volume library (`src/sector.rs`, `src/volume/size.rs`,
`src/sys/block_group.rs`, `src/sys/inode.rs`).

Machine integers are embedded as `Nat`/`Int` with explicit reductions:
a `u32` value is a `Nat` taken modulo `2^32` where the source wraps, an
`i64` is an `Int` (wrapped through `i64wrap` where the source could
overflow), the bit operations `x >> k` and `x & (2^k - 1)` of the source
are embedded as `x / 2^k` and `x % 2^k`, and a Rust panic is the
`PResult.panicked` outcome.
-/

namespace Ext2

/-- `2^32`, the number of `u32` values. -/
def U32 : Nat := 2 ^ 32

/-- `2^64`, the number of `u64`/`usize` values (64-bit target). -/
def U64 : Nat := 2 ^ 64

/-- Reinterpret a `u32` value (a `Nat`, reduced mod `2^32`) as an `i32`,
two's complement. Embeds Rust's `as i32` cast on a `u32`. -/
def u32_as_i32 (n : Nat) : Int :=
  if n % U32 < 2 ^ 31 then ((n % U32 : Nat) : Int)
  else ((n % U32 : Nat) : Int) - (U32 : Int)

/-- Wrap an exact integer to the `i64` range, two's complement. -/
def i64wrap (x : Int) : Int := (x + 2 ^ 63).emod (U64 : Int) - 2 ^ 63

/-- Wrap an exact integer to the `i32` range, two's complement. -/
def i32wrap (x : Int) : Int := (x + 2 ^ 31).emod (U32 : Int) - 2 ^ 31

/-- Wrapping `u32` subtraction, embedding the source's `u32 - u32`. -/
def u32sub (a b : Nat) : Nat := ((a % U32) + U32 - (b % U32)) % U32

/-- The `SectorSize` trait of `src/sector.rs`: a compile-time tag giving
`LOG_SIZE = log2(sector size)`. The source assumes `LOG_SIZE ≤ 31`
(sector sizes fit a `u32`; the four instances use 9..12). -/
structure SectorSize where
  LOG_SIZE : Nat
  log_le : LOG_SIZE ≤ 31

/-- `SectorSize::SIZE = 1 << LOG_SIZE`. -/
def SectorSize.SIZE (S : SectorSize) : Nat := 2 ^ S.LOG_SIZE

/-- `SectorSize::OFFSET_MASK = (SIZE - 1) as u32`. -/
def SectorSize.OFFSET_MASK (S : SectorSize) : Nat := S.SIZE - 1

/-- The `Size512` tag (`LOG_SIZE = 9`). -/
def Size512 : SectorSize := ⟨9, by omega⟩

/-- The `Size1024` tag (`LOG_SIZE = 10`). -/
def Size1024 : SectorSize := ⟨10, by omega⟩

/-- The `Size2048` tag (`LOG_SIZE = 11`). -/
def Size2048 : SectorSize := ⟨11, by omega⟩

/-- The `Size4096` tag (`LOG_SIZE = 12`). -/
def Size4096 : SectorSize := ⟨12, by omega⟩

/-- `Address<S> { sector: u32, offset: u32 }` of `src/sector.rs`.
Field values are `Nat`s; a field holds a `u32` value, i.e. is `< 2^32`,
whenever it was produced by one of the embedded constructors
(`Address.Valid` below). Derived `PartialEq`/`Eq` is field equality. -/
structure Address (S : SectorSize) where
  sector : Nat
  offset : Nat
deriving DecidableEq, Repr

/-- `Address::new_unchecked(sector, offset)`: asserts
`(offset as usize) < S::SIZE` (an unconditional `assert!`, present in
all build profiles); `none` embeds the panic of a failed assertion. -/
def Address.new_unchecked (S : SectorSize) (sector offset : Nat) :
    Option (Address S) :=
  if offset < S.SIZE then some ⟨sector, offset⟩ else none

/-- `Address::new(sector, offset)` of `src/sector.rs`:
`index = ((sector as i64) << LOG_SIZE) + offset as i64` (exact: the
operands are too small to overflow an `i64`), then
`sector = (index >> LOG_SIZE) as u32` and
`offset = index as u32 & OFFSET_MASK`. -/
def Address.new (S : SectorSize) (sector : Nat) (offset : Int) : Address S :=
  let index : Int := (sector : Int) * (S.SIZE : Int) + offset
  ⟨((index.ediv (S.SIZE : Int)).emod (U32 : Int)).toNat,
   ((index.emod (U32 : Int)).toNat) % S.SIZE⟩

/-- `Address::with_block_size(block, offset, log_block_size)`:
`index = ((block as i64) << log_block_size) + offset as i64`, then the
same split as `new`. The `i64` shift and addition may overflow for
extreme arguments, so both are wrapped (Rust release semantics: the
shift amount is masked to 6 bits, the value wraps mod `2^64`). -/
def Address.with_block_size (S : SectorSize) (block : Nat) (offset : Int)
    (log_block_size : Nat) : Address S :=
  let shifted : Int := i64wrap ((block : Int) * ((2 : Int) ^ (log_block_size % 64)))
  let index : Int := i64wrap (shifted + offset)
  ⟨((index.ediv (S.SIZE : Int)).emod (U32 : Int)).toNat,
   ((index.emod (U32 : Int)).toNat) % S.SIZE⟩

/-- `Address::into_index(self) = ((sector as u64) << LOG_SIZE) + offset as u64`
(`u64` arithmetic, hence mod `2^64`). -/
def Address.into_index {S : SectorSize} (a : Address S) : Nat :=
  (a.sector * S.SIZE + a.offset) % U64

/-- `Address::sector_size(&self) = S::SIZE`. -/
def Address.sector_size {S : SectorSize} (_ : Address S) : Nat := S.SIZE

/-- `From<u64> for Address<S>`:
`sector = idx >> LOG_SIZE`, `offset = idx & OFFSET_MASK as u64`, then
`Address::new(sector as u32, offset as i32)`. -/
def Address.ofU64 (S : SectorSize) (idx : Nat) : Address S :=
  let i := idx % U64
  Address.new S ((i / S.SIZE) % U32) (u32_as_i32 (i % S.SIZE))

/-- `From<usize> for Address<S>`: identical to `From<u64>` on the
64-bit targets this library addresses. -/
def Address.ofUsize (S : SectorSize) (idx : Nat) : Address S :=
  Address.ofU64 S idx

/-- `Add for Address<S>`:
`Address::new(self.sector + rhs.sector, (self.offset + rhs.offset) as i32)`
with wrapping `u32` component arithmetic. -/
def Address.add {S : SectorSize} (a b : Address S) : Address S :=
  Address.new S ((a.sector + b.sector) % U32) (u32_as_i32 (a.offset + b.offset))

/-- `Sub for Address<S>`:
`Address::new(self.sector - rhs.sector, self.offset as i32 - rhs.offset as i32)`
with wrapping `u32`/`i32` component arithmetic. -/
def Address.sub {S : SectorSize} (a b : Address S) : Address S :=
  Address.new S (u32sub a.sector b.sector)
    (i32wrap (u32_as_i32 a.offset - u32_as_i32 b.offset))

/-- `Step::forward_checked(start, count)` of `src/sector.rs`:
`start.sector.checked_add(count as u32).map(|sector| Address::new(sector, 0))`.
Note the `count as u32` truncation before the checked addition. -/
def Address.forward_checked {S : SectorSize} (a : Address S) (count : Nat) :
    Option (Address S) :=
  let c := count % U32
  if a.sector + c < U32 then some (Address.new S (a.sector + c) 0) else none

/-- `Step::backward_checked(start, count)`:
`start.sector.checked_sub(count as u32).map(|sector| Address::new(sector, 0))`. -/
def Address.backward_checked {S : SectorSize} (a : Address S) (count : Nat) :
    Option (Address S) :=
  let c := count % U32
  if c ≤ a.sector then some (Address.new S (a.sector - c) 0) else none

/-- Derived `PartialOrd for Address<S>`: always `Some` of the
lexicographic comparison of `(sector, offset)`. -/
def Address.partial_cmp {S : SectorSize} (a b : Address S) : Option Ordering :=
  some ((compare a.sector b.sector).then (compare a.offset b.offset))

/-- An `Address` value whose fields hold what the Rust type's invariant
guarantees: a `u32` sector and a normalized intra-sector offset. -/
def Address.Valid {S : SectorSize} (a : Address S) : Prop :=
  a.sector < U32 ∧ a.offset < S.SIZE

instance {S : SectorSize} (a : Address S) : Decidable a.Valid :=
  inferInstanceAs (Decidable (_ ∧ _))

/-- `Size<S>` of `src/volume/size.rs`: the extent of a volume. -/
inductive Size (S : SectorSize) where
  | Unbounded
  | Bounded (a : Address S)
deriving DecidableEq, Repr

/-- `Size::try_len`. -/
def Size.try_len {S : SectorSize} : Size S → Option (Address S)
  | .Unbounded => none
  | .Bounded n => some n

/-- `Size::is_bounded`. -/
def Size.is_bounded {S : SectorSize} : Size S → Bool
  | .Unbounded => false
  | .Bounded _ => true

/-- `PartialEq for Size<S>`: `Unbounded` is equal to nothing, two
`Bounded` values compare their addresses. -/
def Size.eq {S : SectorSize} : Size S → Size S → Bool
  | .Unbounded, _ => false
  | _, .Unbounded => false
  | .Bounded a, .Bounded b => a == b

/-- `PartialEq<Address<S>> for Size<S>`. -/
def Size.eqAddr {S : SectorSize} : Size S → Address S → Bool
  | .Unbounded, _ => false
  | .Bounded n, a => n == a

/-- `PartialOrd for Size<S>`: `Unbounded` vs `Unbounded` is unordered,
`Unbounded` is greater than any `Bounded`, two `Bounded` values compare
as their addresses. -/
def Size.partial_cmp {S : SectorSize} : Size S → Size S → Option Ordering
  | .Unbounded, .Unbounded => none
  | .Unbounded, _ => some Ordering.gt
  | _, .Unbounded => some Ordering.lt
  | .Bounded a, .Bounded b => Address.partial_cmp a b

/-- `PartialOrd<Address<S>> for Size<S>`. -/
def Size.partial_cmpAddr {S : SectorSize} : Size S → Address S → Option Ordering
  | .Unbounded, _ => some Ordering.gt
  | .Bounded n, a => Address.partial_cmp n a

/-- Rust's `size < end` on `Size<S>` vs `Address<S>`:
`partial_cmp == Some(Less)`. -/
def Size.ltAddr {S : SectorSize} (sz : Size S) (a : Address S) : Bool :=
  Size.partial_cmpAddr sz a == some Ordering.lt

/-- Outcome of a locator call: Rust `Result` extended with the panic
outcome (a failed `assert!`, an `unimplemented!`, or an invalid slice). -/
inductive PResult (ε α : Type) where
  | panicked
  | error (e : ε)
  | ok (a : α)
deriving DecidableEq, Repr

/-- `Ok(_)` test. -/
def PResult.isOk {ε α : Type} : PResult ε α → Bool
  | .ok _ => true
  | _ => false

/-- Modelled from the spec: the error taxonomy of §7 (`src/error.rs` is
not under `src/`). `AddressOutOfBounds` carries
`{ sector: u32, offset: u32, sector_size: usize }`;
`UnsupportedRecordSize` is the second kind of §7. -/
inductive Error where
  | AddressOutOfBounds (sector : Nat) (offset : Nat) (size : Nat)
  | UnsupportedRecordSize (size : Nat)
deriving DecidableEq, Repr

/-- Modelled from the spec: the volume capability of §6 for a volume of
exactly `len` bytes (`src/volume/volume.rs` is not under `src/`): it
exposes its byte contents and its length. -/
structure Volume where
  len : Nat
  byte : Nat → Nat

/-- Modelled from the spec: the byte view `[start, start + n)` of a
volume (zero-copy in the source; materialized as a list here). -/
def Volume.readBytes (v : Volume) (start n : Nat) : List Nat :=
  (List.range n).map fun j => v.byte (start + j)

/-- Modelled from the spec: `volume.size()` for a volume of exactly
`len` bytes is the bounded extent `Bounded(Address::from(len))`. -/
def Volume.size (S : SectorSize) (v : Volume) : Size S :=
  Size.Bounded (Address.ofUsize S v.len)

/-- Modelled from the spec: `slice[_unchecked](range).dynamic_cast::<T>()`
— the byte view of `[a, b)` reinterpreted as the record, returned
together with the end address; per §6 the slice must fail (here: panic)
if the range exceeds the volume or is reversed. The record is its raw
bytes: the field layout of the record types is out of the core's scope. -/
def Volume.sliceCast {S : SectorSize} (v : Volume) (a b : Address S) :
    PResult Error (List Nat × Address S) :=
  if a.into_index ≤ b.into_index ∧ b.into_index ≤ v.len then
    PResult.ok (v.readBytes a.into_index (b.into_index - a.into_index), b)
  else PResult.panicked

/-- `mem::size_of::<BlockGroupDescriptor>()`: the packed struct of
`src/sys/block_group.rs` — three `u32`, three `u16`, 14 reserved bytes:
`4+4+4+2+2+2+14 = 32`. -/
def BlockGroupDescriptor.size_of : Nat := 32

/-- `mem::size_of::<Inode>()`: the packed struct of `src/sys/inode.rs` —
`2+2+4+4+4+4+4+2+2+4+4+4+48+4+4+4+4+4+4+4+12 = 128`. -/
def Inode.size_of : Nat := 128

/-- `BlockGroupDescriptor::find_descriptor(haystack, offset)` of
`src/sys/block_group.rs`:
`end = offset + Address::from(size_of::<BlockGroupDescriptor>())`; if
`haystack.size() < end`, fail with `AddressOutOfBounds { end.sector(),
end.offset(), end.sector_size() }`; else slice `[offset, end)` and cast. -/
def BlockGroupDescriptor.find_descriptor {S : SectorSize} (haystack : Volume)
    (offset : Address S) : PResult Error (List Nat × Address S) :=
  let nd := offset.add (Address.ofUsize S BlockGroupDescriptor.size_of)
  if Size.ltAddr (Volume.size S haystack) nd then
    PResult.error (Error.AddressOutOfBounds nd.sector nd.offset nd.sector_size)
  else
    haystack.sliceCast offset nd

/-- The `for i in 0..count` loop body of `find_descriptor_table`: for
each `i`, locate one descriptor at `offset + Address::from(i * 32)`,
short-circuiting on the first error (`?`) or panic. -/
def BlockGroupDescriptor.reads {S : SectorSize} (haystack : Volume)
    (offset : Address S) : List Nat → PResult Error (List (List Nat))
  | [] => PResult.ok []
  | i :: rest =>
    match BlockGroupDescriptor.find_descriptor haystack
        (offset.add (Address.ofUsize S (i * BlockGroupDescriptor.size_of))) with
    | PResult.panicked => PResult.panicked
    | PResult.error e => PResult.error e
    | PResult.ok d =>
      match BlockGroupDescriptor.reads haystack offset rest with
      | PResult.panicked => PResult.panicked
      | PResult.error e => PResult.error e
      | PResult.ok ds => PResult.ok (d.1 :: ds)

/-- `BlockGroupDescriptor::find_descriptor_table(haystack, offset, count)`:
`end = offset + Address::from(count * 32)`; whole-table bounds check,
then the loop; on success returns `(vec, offset)` — the source returns
the outer `offset` binding (the start address), not `end`. -/
def BlockGroupDescriptor.find_descriptor_table {S : SectorSize} (haystack : Volume)
    (offset : Address S) (count : Nat) :
    PResult Error (List (List Nat) × Address S) :=
  let nd := offset.add (Address.ofUsize S (count * BlockGroupDescriptor.size_of))
  if Size.ltAddr (Volume.size S haystack) nd then
    PResult.error (Error.AddressOutOfBounds nd.sector nd.offset nd.sector_size)
  else
    match BlockGroupDescriptor.reads haystack offset (List.range count) with
    | PResult.panicked => PResult.panicked
    | PResult.error e => PResult.error e
    | PResult.ok ds => PResult.ok (ds, offset)

/-- `Inode::find_inode(haystack, offset, size)` of `src/sys/inode.rs`:
`size != size_of::<Inode>()` hits `unimplemented!` (a panic) before
anything else; otherwise the same locate protocol with record size
`size`. -/
def Inode.find_inode {S : SectorSize} (haystack : Volume) (offset : Address S)
    (size : Nat) : PResult Error (List Nat × Address S) :=
  if size ≠ Inode.size_of then PResult.panicked
  else
    let nd := offset.add (Address.ofUsize S size)
    if Size.ltAddr (Volume.size S haystack) nd then
      PResult.error (Error.AddressOutOfBounds nd.sector nd.offset nd.sector_size)
    else
      haystack.sliceCast offset nd


/-! ## Arithmetic lemma kit -/

theorem SectorSize.size_pos (S : SectorSize) : 0 < S.SIZE :=
  Nat.pos_pow_of_pos _ (by omega)

theorem SectorSize.size_dvd_u32 (S : SectorSize) : S.SIZE ∣ U32 :=
  pow_dvd_pow 2 (by have := S.log_le; omega)

theorem SectorSize.size_le (S : SectorSize) : S.SIZE ≤ 2 ^ 31 :=
  Nat.pow_le_pow_right (by omega) S.log_le

theorem SectorSize.u32_mul_size_le (S : SectorSize) : U32 * S.SIZE ≤ 2 ^ 63 := by
  have h := Nat.mul_le_mul (le_refl U32) S.size_le
  have he : U32 * 2 ^ 31 = 2 ^ 63 := by norm_num [U32]
  omega

theorem int_natCast_ediv (a b : Nat) :
    (a : Int).ediv (b : Int) = ((a / b : Nat) : Int) := rfl

theorem int_natCast_emod (a b : Nat) :
    (a : Int).emod (b : Int) = ((a % b : Nat) : Int) := rfl

theorem u32_as_i32_of_lt {n : Nat} (h : n < 2 ^ 31) : u32_as_i32 n = (n : Int) := by
  have hU : n < U32 := by
    have h2 : (2 : Nat) ^ 31 < 2 ^ 32 := by norm_num
    have h3 : U32 = 2 ^ 32 := rfl
    omega
  have h32 : n % U32 = n := Nat.mod_eq_of_lt hU
  unfold u32_as_i32
  rw [h32, if_pos h]

/-- `Address::new` on a nonnegative in-range linear index is the plain
split `(index / SIZE, index % SIZE)`. -/
theorem Address.new_of_nonneg (S : SectorSize) (s : Nat) (o : Int)
    (h0 : 0 ≤ (s : Int) * (S.SIZE : Int) + o)
    (h1 : (s : Int) * (S.SIZE : Int) + o < (U32 : Int) * (S.SIZE : Int)) :
    Address.new S s o =
      ⟨((s : Int) * (S.SIZE : Int) + o).toNat / S.SIZE,
       ((s : Int) * (S.SIZE : Int) + o).toNat % S.SIZE⟩ := by
  obtain ⟨n, hn⟩ : ∃ n : Nat, (s : Int) * (S.SIZE : Int) + o = (n : Int) :=
    ⟨((s : Int) * (S.SIZE : Int) + o).toNat, (Int.toNat_of_nonneg h0).symm⟩
  have hnlt : n < U32 * S.SIZE := by
    rw [hn] at h1
    exact_mod_cast h1
  have hdiv : n / S.SIZE < U32 := (Nat.div_lt_iff_lt_mul S.size_pos).mpr (by omega)
  show (⟨((((s : Int) * (S.SIZE : Int) + o).ediv (S.SIZE : Int)).emod (U32 : Int)).toNat,
        ((((s : Int) * (S.SIZE : Int) + o).emod (U32 : Int)).toNat) % S.SIZE⟩ : Address S) = _
  rw [hn]
  rw [int_natCast_ediv, int_natCast_emod, int_natCast_emod]
  simp only [Int.toNat_natCast]
  rw [Nat.mod_eq_of_lt hdiv, Nat.mod_mod_of_dvd n S.size_dvd_u32]

/-- `Address::new` on natural components: the normalized split. -/
theorem Address.new_nat (S : SectorSize) (s o : Nat)
    (h : s * S.SIZE + o < U32 * S.SIZE) :
    Address.new S s (o : Int) =
      ⟨(s * S.SIZE + o) / S.SIZE, (s * S.SIZE + o) % S.SIZE⟩ := by
  have hc : (s : Int) * (S.SIZE : Int) + (o : Int) = ((s * S.SIZE + o : Nat) : Int) := by
    push_cast; ring
  have h0 : 0 ≤ (s : Int) * (S.SIZE : Int) + (o : Int) := by positivity
  have h1 : (s : Int) * (S.SIZE : Int) + (o : Int) < (U32 : Int) * (S.SIZE : Int) := by
    rw [hc]
    have hcu : ((U32 * S.SIZE : Nat) : Int) = (U32 : Int) * (S.SIZE : Int) := by push_cast; ring
    rw [← hcu]
    exact_mod_cast h
  rw [Address.new_of_nonneg S s (o : Int) h0 h1]
  simp only [hc, Int.toNat_natCast]

/-- A normalized split is `Valid` and `into_index` recovers the index. -/
theorem Address.norm_valid (S : SectorSize) (n : Nat) (h : n < U32 * S.SIZE) :
    (⟨n / S.SIZE, n % S.SIZE⟩ : Address S).Valid ∧
      (⟨n / S.SIZE, n % S.SIZE⟩ : Address S).into_index = n := by
  have hdiv : n / S.SIZE < U32 := (Nat.div_lt_iff_lt_mul S.size_pos).mpr (by omega)
  refine ⟨⟨hdiv, Nat.mod_lt _ S.size_pos⟩, ?_⟩
  show (n / S.SIZE * S.SIZE + n % S.SIZE) % U64 = n
  have hdm : n / S.SIZE * S.SIZE + n % S.SIZE = n := by
    rw [Nat.mul_comm]
    exact Nat.div_add_mod n S.SIZE
  rw [hdm]
  have h63 := S.u32_mul_size_le
  have hlit : (2 : Nat) ^ 63 < U64 := by norm_num [U64]
  exact Nat.mod_eq_of_lt (by omega)

/-- `into_index` on a `Valid` address is exact (no `u64` wrap), and is
bounded by `2^32 * SIZE`. -/
theorem Address.into_index_eq {S : SectorSize} (a : Address S) (h : a.Valid) :
    a.into_index = a.sector * S.SIZE + a.offset ∧
      a.sector * S.SIZE + a.offset < U32 * S.SIZE := by
  have h1 : a.sector + 1 ≤ U32 := h.1
  have h2 : (a.sector + 1) * S.SIZE ≤ U32 * S.SIZE := Nat.mul_le_mul_right _ h1
  have h3 : a.sector * S.SIZE + a.offset < (a.sector + 1) * S.SIZE := by
    have := h.2
    rw [Nat.succ_mul]
    omega
  have hlt : a.sector * S.SIZE + a.offset < U32 * S.SIZE := by omega
  refine ⟨?_, hlt⟩
  have h63 := S.u32_mul_size_le
  have hlit : (2 : Nat) ^ 63 < U64 := by norm_num [U64]
  exact Nat.mod_eq_of_lt (by omega)

/-- `From<u64>` (and `From<usize>`) on an in-range index is the
normalized split. -/
theorem Address.ofU64_eq (S : SectorSize) (idx : Nat) (h : idx < U32 * S.SIZE) :
    Address.ofU64 S idx = ⟨idx / S.SIZE, idx % S.SIZE⟩ := by
  have h63 := S.u32_mul_size_le
  have hlit : (2 : Nat) ^ 63 < U64 := by norm_num [U64]
  have hU : idx < U64 := by omega
  have hmod : idx % U64 = idx := Nat.mod_eq_of_lt hU
  have hdiv : idx / S.SIZE < U32 := (Nat.div_lt_iff_lt_mul S.size_pos).mpr (by omega)
  have hoff31 : idx % S.SIZE < 2 ^ 31 := Nat.lt_of_lt_of_le (Nat.mod_lt _ S.size_pos) S.size_le
  show Address.new S ((idx % U64 / S.SIZE) % U32) (u32_as_i32 (idx % U64 % S.SIZE)) = _
  rw [hmod, Nat.mod_eq_of_lt hdiv, u32_as_i32_of_lt hoff31]
  have hdm : idx / S.SIZE * S.SIZE + idx % S.SIZE = idx := by
    rw [Nat.mul_comm]
    exact Nat.div_add_mod idx S.SIZE
  have harg : idx / S.SIZE * S.SIZE + idx % S.SIZE < U32 * S.SIZE := by omega
  rw [Address.new_nat S _ _ harg, hdm]

/-- Component-wise `Add` agrees with linear-index addition when no
`u32` overflow occurs: for valid operands with in-range sum (and an
offset sum below `2^31`, so the `as i32` cast is lossless), the result
is the normalized split of the index sum. -/
theorem Address.add_eq {S : SectorSize} (a b : Address S)
    (ha : a.Valid) (hb : b.Valid)
    (hoff : a.offset + b.offset < 2 ^ 31)
    (hsum : a.sector * S.SIZE + a.offset + (b.sector * S.SIZE + b.offset)
      < U32 * S.SIZE) :
    a.add b = ⟨(a.sector * S.SIZE + a.offset + (b.sector * S.SIZE + b.offset)) / S.SIZE,
               (a.sector * S.SIZE + a.offset + (b.sector * S.SIZE + b.offset)) % S.SIZE⟩ := by
  have hsec : a.sector + b.sector < U32 := by
    have hmul : (a.sector + b.sector) * S.SIZE ≤
        a.sector * S.SIZE + a.offset + (b.sector * S.SIZE + b.offset) := by
      rw [Nat.add_mul]
      omega
    by_contra hcon
    have : U32 * S.SIZE ≤ (a.sector + b.sector) * S.SIZE :=
      Nat.mul_le_mul_right _ (by omega)
    omega
  show Address.new S ((a.sector + b.sector) % U32) (u32_as_i32 (a.offset + b.offset)) = _
  rw [Nat.mod_eq_of_lt hsec, u32_as_i32_of_lt hoff]
  have harg : (a.sector + b.sector) * S.SIZE + (a.offset + b.offset) < U32 * S.SIZE := by
    rw [Nat.add_mul]
    omega
  rw [Address.new_nat S _ _ harg]
  have he : (a.sector + b.sector) * S.SIZE + (a.offset + b.offset)
      = a.sector * S.SIZE + a.offset + (b.sector * S.SIZE + b.offset) := by
    rw [Nat.add_mul]
    omega
  rw [he]

/-- Lexicographic order on normalized `(sector, offset)` pairs is
linear-index order. -/
theorem lex_index_lt (SZ s1 o1 s2 o2 : Nat) (h1 : o1 < SZ) (h2 : o2 < SZ) :
    s1 * SZ + o1 < s2 * SZ + o2 ↔ s1 < s2 ∨ (s1 = s2 ∧ o1 < o2) := by
  constructor
  · intro hlt
    rcases Nat.lt_trichotomy s1 s2 with hs | hs | hs
    · exact Or.inl hs
    · subst hs
      exact Or.inr ⟨rfl, by omega⟩
    · exfalso
      have hb : s2 * SZ + o2 < (s2 + 1) * SZ := by rw [Nat.succ_mul]; omega
      have hc : (s2 + 1) * SZ ≤ s1 * SZ := Nat.mul_le_mul_right _ (by omega)
      omega
  · rintro (hs | ⟨rfl, ho⟩)
    · have hb : s1 * SZ + o1 < (s1 + 1) * SZ := by rw [Nat.succ_mul]; omega
      have hc : (s1 + 1) * SZ ≤ s2 * SZ := Nat.mul_le_mul_right _ (by omega)
      omega
    · omega

/-- The derived lexicographic comparison of valid addresses is `lt`
exactly when the linear indices are ordered. -/
theorem Address.partial_cmp_lt_iff {S : SectorSize} (a b : Address S)
    (ha : a.Valid) (hb : b.Valid) :
    Address.partial_cmp a b = some Ordering.lt ↔ a.into_index < b.into_index := by
  obtain ⟨hia, -⟩ := Address.into_index_eq a ha
  obtain ⟨hib, -⟩ := Address.into_index_eq b hb
  rw [hia, hib, lex_index_lt S.SIZE _ _ _ _ ha.2 hb.2]
  unfold Address.partial_cmp
  rw [Option.some_inj]
  rcases Nat.lt_trichotomy a.sector b.sector with hs | hs | hs
  · rw [(Nat.compare_eq_lt).mpr hs]
    simp [Ordering.then, hs]
  · rw [hs]
    have hcc : compare b.sector b.sector = Ordering.eq := Nat.compare_eq_eq.mpr rfl
    rw [hcc]
    constructor
    · intro h
      refine Or.inr ⟨rfl, ?_⟩
      have hco : compare a.offset b.offset = Ordering.lt := by
        simpa [Ordering.then] using h
      exact Nat.compare_eq_lt.mp hco
    · rintro (h | ⟨-, h⟩)
      · omega
      · simp [Ordering.then, Nat.compare_eq_lt.mpr h]
  · rw [(Nat.compare_eq_gt).mpr hs]
    constructor
    · intro h
      simp [Ordering.then] at h
    · rintro (h | ⟨h, -⟩) <;> omega

/-- The `size < end` test of the locators, on a bounded size, is
linear-index comparison. -/
theorem Size.ltAddr_iff {S : SectorSize} (n a : Address S)
    (hn : n.Valid) (ha : a.Valid) :
    Size.ltAddr (Size.Bounded n) a = (decide (n.into_index < a.into_index)) := by
  have hred : Size.ltAddr (Size.Bounded n) a
      = (Address.partial_cmp n a == some Ordering.lt) := rfl
  rw [hred]
  rcases Decidable.em (n.into_index < a.into_index) with h | h
  · rw [(Address.partial_cmp_lt_iff n a hn ha).mpr h, decide_eq_true h]
    rfl
  · rw [decide_eq_false h]
    rcases hcmp : Address.partial_cmp n a with - | o
    · exact absurd hcmp (by simp [Address.partial_cmp])
    · have hne : o ≠ Ordering.lt := fun he =>
        h ((Address.partial_cmp_lt_iff n a hn ha).mp (he ▸ hcmp))
      cases o
      · exact absurd rfl hne
      · rfl
      · rfl

/-- `start + Address::from(R)` for a valid start and an in-range record
size `R` is exact: the result is valid and its linear index is
`start.into_index() + R`. -/
theorem Address.add_ofU64 {S : SectorSize} (A : Address S) (R : Nat)
    (hL : S.LOG_SIZE ≤ 30) (hA : A.Valid)
    (hidx : A.into_index + R < U32 * S.SIZE) :
    (A.add (Address.ofUsize S R)).Valid ∧
      (A.add (Address.ofUsize S R)).into_index = A.into_index + R := by
  have hu : Address.ofUsize S R = Address.ofU64 S R := rfl
  rw [hu]
  have hRlt : R < U32 * S.SIZE := by omega
  have hB := Address.ofU64_eq S R hRlt
  obtain ⟨hBv, hBi⟩ := Address.norm_valid S R hRlt
  obtain ⟨hiA, hltA⟩ := Address.into_index_eq A hA
  rw [← hB] at hBv hBi
  obtain ⟨hiB, -⟩ := Address.into_index_eq _ hBv
  have hsz30 : S.SIZE ≤ 2 ^ 30 := Nat.pow_le_pow_right (by omega) hL
  have hpows : (2 : Nat) ^ 30 + 2 ^ 30 ≤ 2 ^ 31 := by norm_num
  have hoff : A.offset + (Address.ofU64 S R).offset < 2 ^ 31 := by
    have h1 := hA.2
    have h2 := hBv.2
    omega
  have hraw : (Address.ofU64 S R).sector * S.SIZE + (Address.ofU64 S R).offset = R := by
    rw [← hiB, hBi]
  have hsum : A.sector * S.SIZE + A.offset +
      ((Address.ofU64 S R).sector * S.SIZE + (Address.ofU64 S R).offset) < U32 * S.SIZE := by
    rw [hraw, ← hiA]
    exact hidx
  rw [Address.add_eq A _ hA hBv hoff hsum]
  have hn : A.sector * S.SIZE + A.offset +
      ((Address.ofU64 S R).sector * S.SIZE + (Address.ofU64 S R).offset)
      = A.into_index + R := by
    rw [hraw, hiA]
  rw [hn]
  exact Address.norm_valid S (A.into_index + R) (by omega)

/-- The volume extent of an in-range `len` is a valid address whose
linear index is `len`. -/
theorem Volume.size_eq {S : SectorSize} (v : Volume) (hN : v.len < U32 * S.SIZE) :
    (Address.ofUsize S v.len).Valid ∧
      (Address.ofUsize S v.len).into_index = v.len := by
  have h := Address.ofU64_eq S v.len hN
  obtain ⟨hv, hi⟩ := Address.norm_valid S v.len hN
  rw [← h] at hv hi
  exact ⟨hv, hi⟩

/-- `find_descriptor` behavior under no-overflow side conditions:
success exactly when the 32-byte record fits, with the bytes at
`[start, start+32)` and the end address; otherwise the out-of-bounds
error built from the end address. -/
theorem BlockGroupDescriptor.find_descriptor_spec {S : SectorSize}
    (v : Volume) (A : Address S)
    (hL : S.LOG_SIZE ≤ 30) (hA : A.Valid)
    (hN : v.len < U32 * S.SIZE)
    (hidx : A.into_index + 32 < U32 * S.SIZE) :
    (A.into_index + 32 ≤ v.len →
      BlockGroupDescriptor.find_descriptor v A =
        PResult.ok (v.readBytes A.into_index 32,
          A.add (Address.ofUsize S BlockGroupDescriptor.size_of)))
    ∧ (v.len < A.into_index + 32 →
      BlockGroupDescriptor.find_descriptor v A =
        PResult.error (Error.AddressOutOfBounds
          (A.add (Address.ofUsize S BlockGroupDescriptor.size_of)).sector
          (A.add (Address.ofUsize S BlockGroupDescriptor.size_of)).offset
          S.SIZE)) := by
  obtain ⟨hndv, hndi⟩ :=
    Address.add_ofU64 A 32 hL hA hidx
  obtain ⟨hszv, hszi⟩ := Volume.size_eq (S := S) v hN
  have hconv : BlockGroupDescriptor.find_descriptor v A =
      (if Size.ltAddr (Volume.size S v) (A.add (Address.ofUsize S 32))
       then PResult.error (Error.AddressOutOfBounds
              (A.add (Address.ofUsize S 32)).sector
              (A.add (Address.ofUsize S 32)).offset S.SIZE)
       else v.sliceCast A (A.add (Address.ofUsize S 32))) := rfl
  have hlt : Size.ltAddr (Volume.size S v) (A.add (Address.ofUsize S 32))
      = decide (v.len < A.into_index + 32) := by
    have h1 : Volume.size S v = Size.Bounded (Address.ofUsize S v.len) := rfl
    rw [h1, Size.ltAddr_iff _ _ hszv hndv, hszi, hndi]
  constructor
  · intro hfit
    rw [hconv, hlt, decide_eq_false (by omega)]
    simp only [Bool.false_eq_true, if_false]
    unfold Volume.sliceCast
    rw [if_pos ⟨by omega, by rw [hndi]; omega⟩, hndi]
    have h32 : A.into_index + 32 - A.into_index = 32 := by omega
    rw [h32]
    rfl
  · intro hover
    rw [hconv, hlt, decide_eq_true hover]
    rfl

/-- `find_inode` with the supported record size 128: success exactly
when the record fits, the bytes at `[start, start+128)` with the end
address; otherwise the out-of-bounds error built from the end address. -/
theorem Inode.find_inode_spec {S : SectorSize}
    (v : Volume) (A : Address S)
    (hL : S.LOG_SIZE ≤ 30) (hA : A.Valid)
    (hN : v.len < U32 * S.SIZE)
    (hidx : A.into_index + 128 < U32 * S.SIZE) :
    (A.into_index + 128 ≤ v.len →
      Inode.find_inode v A 128 =
        PResult.ok (v.readBytes A.into_index 128,
          A.add (Address.ofUsize S 128)))
    ∧ (v.len < A.into_index + 128 →
      Inode.find_inode v A 128 =
        PResult.error (Error.AddressOutOfBounds
          (A.add (Address.ofUsize S 128)).sector
          (A.add (Address.ofUsize S 128)).offset
          S.SIZE)) := by
  obtain ⟨hndv, hndi⟩ :=
    Address.add_ofU64 A 128 hL hA hidx
  obtain ⟨hszv, hszi⟩ := Volume.size_eq (S := S) v hN
  have hconv : Inode.find_inode v A 128 =
      (if Size.ltAddr (Volume.size S v) (A.add (Address.ofUsize S 128))
       then PResult.error (Error.AddressOutOfBounds
              (A.add (Address.ofUsize S 128)).sector
              (A.add (Address.ofUsize S 128)).offset S.SIZE)
       else v.sliceCast A (A.add (Address.ofUsize S 128))) := by
    unfold Inode.find_inode
    rw [if_neg (by decide)]
    rfl
  have hlt : Size.ltAddr (Volume.size S v) (A.add (Address.ofUsize S 128))
      = decide (v.len < A.into_index + 128) := by
    have h1 : Volume.size S v = Size.Bounded (Address.ofUsize S v.len) := rfl
    rw [h1, Size.ltAddr_iff _ _ hszv hndv, hszi, hndi]
  constructor
  · intro hfit
    rw [hconv, hlt, decide_eq_false (by omega)]
    simp only [Bool.false_eq_true, if_false]
    unfold Volume.sliceCast
    rw [if_pos ⟨by omega, by rw [hndi]; omega⟩, hndi]
    have h128 : A.into_index + 128 - A.into_index = 128 := by omega
    rw [h128]
  · intro hover
    rw [hconv, hlt, decide_eq_true hover]
    simp only [if_true]

/-- The table loop: when the whole table fits, every iteration's
single-record locate succeeds and the loop returns the reads at
`start + i*32` in ascending order of `i`. -/
theorem BlockGroupDescriptor.reads_ok {S : SectorSize} (v : Volume) (A : Address S)
    (hL : S.LOG_SIZE ≤ 30) (hA : A.Valid) (hN : v.len < U32 * S.SIZE)
    (K : Nat) (hK : A.into_index + K * 32 < U32 * S.SIZE)
    (hfit : A.into_index + K * 32 ≤ v.len) :
    ∀ is : List Nat, (∀ i ∈ is, i < K) →
      BlockGroupDescriptor.reads v A is =
        PResult.ok (is.map fun i => v.readBytes (A.into_index + i * 32) 32) := by
  intro is
  induction is with
  | nil => intro _; rfl
  | cons i rest ih =>
    intro hall
    have hiK : i < K := hall i (List.mem_cons_self i rest)
    have hi32 : (i + 1) * 32 ≤ K * 32 := Nat.mul_le_mul_right _ hiK
    have hi32b : i * 32 + 32 ≤ K * 32 := by rw [Nat.succ_mul] at hi32; omega
    obtain ⟨hAiv, hAii⟩ := Address.add_ofU64 A (i * 32) hL hA (by omega)
    have hspec := BlockGroupDescriptor.find_descriptor_spec v
      (A.add (Address.ofUsize S (i * 32))) hL hAiv hN (by rw [hAii]; omega)
    have hfd := hspec.1 (by rw [hAii]; omega)
    have hso : BlockGroupDescriptor.size_of = 32 := rfl
    have hstep : BlockGroupDescriptor.reads v A (i :: rest) =
        match BlockGroupDescriptor.find_descriptor v
            (A.add (Address.ofUsize S (i * 32))) with
        | PResult.panicked => PResult.panicked
        | PResult.error e => PResult.error e
        | PResult.ok d =>
          match BlockGroupDescriptor.reads v A rest with
          | PResult.panicked => PResult.panicked
          | PResult.error e => PResult.error e
          | PResult.ok ds => PResult.ok (d.1 :: ds) := rfl
    rw [hstep, hfd, ih (fun j hj => hall j (List.mem_cons_of_mem i hj)), hAii]
    rfl

/-- `find_descriptor_table` behavior under no-overflow side conditions:
one whole-table bounds check decides the call; on failure the
out-of-bounds error is built from the table's end address and no vector
is produced; on success the result is the `K` reads at `start + i*32`
in ascending order of `i`, paired with the start address. -/
theorem BlockGroupDescriptor.find_descriptor_table_spec {S : SectorSize}
    (v : Volume) (A : Address S) (K : Nat)
    (hL : S.LOG_SIZE ≤ 30) (hA : A.Valid) (hN : v.len < U32 * S.SIZE)
    (hK : A.into_index + K * 32 < U32 * S.SIZE) :
    (A.into_index + K * 32 ≤ v.len →
      BlockGroupDescriptor.find_descriptor_table v A K =
        PResult.ok
          ((List.range K).map fun i => v.readBytes (A.into_index + i * 32) 32, A))
    ∧ (v.len < A.into_index + K * 32 →
      BlockGroupDescriptor.find_descriptor_table v A K =
        PResult.error (Error.AddressOutOfBounds
          (A.add (Address.ofUsize S (K * 32))).sector
          (A.add (Address.ofUsize S (K * 32))).offset
          S.SIZE)) := by
  obtain ⟨hndv, hndi⟩ := Address.add_ofU64 A (K * 32) hL hA hK
  obtain ⟨hszv, hszi⟩ := Volume.size_eq (S := S) v hN
  have hconv : BlockGroupDescriptor.find_descriptor_table v A K =
      (if Size.ltAddr (Volume.size S v) (A.add (Address.ofUsize S (K * 32)))
       then PResult.error (Error.AddressOutOfBounds
              (A.add (Address.ofUsize S (K * 32))).sector
              (A.add (Address.ofUsize S (K * 32))).offset S.SIZE)
       else
        match BlockGroupDescriptor.reads v A (List.range K) with
        | PResult.panicked => PResult.panicked
        | PResult.error e => PResult.error e
        | PResult.ok ds => PResult.ok (ds, A)) := rfl
  have hlt : Size.ltAddr (Volume.size S v) (A.add (Address.ofUsize S (K * 32)))
      = decide (v.len < A.into_index + K * 32) := by
    have h1 : Volume.size S v = Size.Bounded (Address.ofUsize S v.len) := rfl
    rw [h1, Size.ltAddr_iff _ _ hszv hndv, hszi, hndi]
  constructor
  · intro hfit
    rw [hconv, hlt, decide_eq_false (by omega)]
    simp only [Bool.false_eq_true, if_false]
    rw [BlockGroupDescriptor.reads_ok v A hL hA hN K hK hfit (List.range K)
      (fun j hj => List.mem_range.mp hj)]
  · intro hover
    rw [hconv, hlt, decide_eq_true hover]
    rfl

/-! ## Claims -/

/-- C3: for every sector-size tag `S`, every sector and every signed
offset (including negative values and values at or above `S::SIZE`),
`Address::<S>::new(sector, offset).offset() < S::SIZE`; and every
address produced by `with_block_size`, `From<u64>`, `From<usize>`,
`+` or `-` also satisfies `offset() < S::SIZE`. -/
theorem C3_offset_invariant (S : SectorSize) (s : Nat) (o : Int) (blk lbs : Nat)
    (idx : Nat) (a b : Address S) :
    (Address.new S s o).offset < S.SIZE
    ∧ (Address.with_block_size S blk o lbs).offset < S.SIZE
    ∧ (Address.ofU64 S idx).offset < S.SIZE
    ∧ (Address.ofUsize S idx).offset < S.SIZE
    ∧ (a.add b).offset < S.SIZE
    ∧ (a.sub b).offset < S.SIZE :=
  ⟨Nat.mod_lt _ S.size_pos, Nat.mod_lt _ S.size_pos, Nat.mod_lt _ S.size_pos,
   Nat.mod_lt _ S.size_pos, Nat.mod_lt _ S.size_pos, Nat.mod_lt _ S.size_pos⟩

/-- C4: `Address::new` renormalizes through the 64-bit linear index
`sector*SIZE + signed_offset` split at `LOG_SIZE` bits — whenever that
index is nonnegative and in range its value is recovered by
`into_index` — and in particular, on `Size512`: `new(0,512) = new(1,0)`,
`new(2,-256) = new(1,256)`, `new(2,-257) = new(1,255)`, and
`new(2,-1023) = new(0,1)`. -/
theorem C4_new_renormalizes (s : Nat) (o : Int)
    (h0 : 0 ≤ (s : Int) * (Size512.SIZE : Int) + o)
    (h1 : (s : Int) * (Size512.SIZE : Int) + o < (U32 : Int) * (Size512.SIZE : Int)) :
    Address.new Size512 0 512 = Address.new Size512 1 0
    ∧ Address.new Size512 2 (-256) = Address.new Size512 1 256
    ∧ Address.new Size512 2 (-257) = Address.new Size512 1 255
    ∧ Address.new Size512 2 (-1023) = Address.new Size512 0 1
    ∧ (Address.new Size512 s o).into_index
        = ((s : Int) * (Size512.SIZE : Int) + o).toNat := by
  refine ⟨by decide, by decide, by decide, by decide, ?_⟩
  have hn : ((s : Int) * (Size512.SIZE : Int) + o).toNat < U32 * Size512.SIZE := by
    have h2 : ((s : Int) * (Size512.SIZE : Int) + o)
        = ((((s : Int) * (Size512.SIZE : Int) + o).toNat : Nat) : Int) :=
      (Int.toNat_of_nonneg h0).symm
    have h3 : ((U32 * Size512.SIZE : Nat) : Int) = (U32 : Int) * (Size512.SIZE : Int) := by
      push_cast
      ring
    have h4 := h1
    rw [h2, ← h3] at h4
    exact_mod_cast h4
  rw [Address.new_of_nonneg Size512 s o h0 h1]
  exact (Address.norm_valid Size512 _ hn).2

/-- C4 witness: the hypotheses of `C4_new_renormalizes` hold at
`(sector, offset) = (2, -256)` and the renormalized address has linear
index `768`. -/
theorem C4_witness :
    Address.new Size512 0 512 = Address.new Size512 1 0
    ∧ Address.new Size512 2 (-256) = Address.new Size512 1 256
    ∧ Address.new Size512 2 (-257) = Address.new Size512 1 255
    ∧ Address.new Size512 2 (-1023) = Address.new Size512 0 1
    ∧ (Address.new Size512 2 (-256)).into_index
        = (((2 : Nat) : Int) * (Size512.SIZE : Int) + (-256)).toNat :=
  C4_new_renormalizes 2 (-256) (by decide) (by decide)

/-- C5: `Address` addition and subtraction carry and borrow across
sector boundaries exactly as linear-index arithmetic: on `Size2048`,
`new(0,1024) + new(0,1024) = new(1,0)` with linear index `2048`; on
`Size512`, `new(0,2048) - new(0,256) = new(3,256)` with linear index
`1792`, and `new(2,0) - new(0,256) = new(1,256)`. -/
theorem C5_arith_carries :
    (Address.new Size2048 0 1024).add (Address.new Size2048 0 1024)
      = Address.new Size2048 1 0
    ∧ ((Address.new Size2048 0 1024).add (Address.new Size2048 0 1024)).into_index = 2048
    ∧ (Address.new Size512 0 2048).sub (Address.new Size512 0 256)
      = Address.new Size512 3 256
    ∧ ((Address.new Size512 0 2048).sub (Address.new Size512 0 256)).into_index = 1792
    ∧ (Address.new Size512 2 0).sub (Address.new Size512 0 256)
      = Address.new Size512 1 256 := by
  refine ⟨by decide, by decide, by decide, by decide, by decide⟩

/-- C9: `Unbounded` is equal to nothing — not to any `Size`, not to
another `Unbounded`, not to any `Address`; under the partial order it
is strictly greater than every `Bounded` size and every address, while
`Unbounded` versus `Unbounded` is unordered (`None`, not equal); two
`Bounded` sizes compare exactly as their addresses do. -/
theorem C9_unbounded_order {S : SectorSize} (a b : Address S) (sz : Size S) :
    Size.eq Size.Unbounded sz = false
    ∧ Size.eq sz Size.Unbounded = false
    ∧ Size.eqAddr Size.Unbounded a = false
    ∧ Size.partial_cmp (S := S) Size.Unbounded Size.Unbounded = none
    ∧ Size.partial_cmp Size.Unbounded (Size.Bounded a) = some Ordering.gt
    ∧ Size.partial_cmp (Size.Bounded a) Size.Unbounded = some Ordering.lt
    ∧ Size.partial_cmpAddr Size.Unbounded a = some Ordering.gt
    ∧ Size.partial_cmp (Size.Bounded a) (Size.Bounded b) = Address.partial_cmp a b
    ∧ Size.eq (Size.Bounded a) (Size.Bounded b) = (a == b) := by
  refine ⟨?_, ?_, rfl, rfl, rfl, rfl, rfl, rfl, rfl⟩ <;> cases sz <;> rfl

/-- C10: the unchecked constructor's assertion is unconditional: for
every tag and every `(sector, offset)`, `new_unchecked` panics whenever
`offset ≥ S::SIZE`, and any address it does return satisfies the
offset invariant. -/
theorem C10_new_unchecked_asserts (S : SectorSize) (s o : Nat) :
    (S.SIZE ≤ o → Address.new_unchecked S s o = none)
    ∧ (∀ a : Address S, Address.new_unchecked S s o = some a → a.offset < S.SIZE) := by
  constructor
  · intro h
    unfold Address.new_unchecked
    rw [if_neg (by omega)]
  · intro a ha
    unfold Address.new_unchecked at ha
    by_cases hlt : o < S.SIZE
    · rw [if_pos hlt] at ha
      cases ha
      exact hlt
    · rw [if_neg hlt] at ha
      cases ha

/-- C10 witness: `new_unchecked` on `Size512` with offset `600 ≥ 512`
panics; with offset `5 < 512` it returns an address whose offset
satisfies the invariant. -/
theorem C10_witness :
    Address.new_unchecked Size512 0 600 = none
    ∧ (⟨0, 5⟩ : Address Size512).offset < Size512.SIZE :=
  ⟨(C10_new_unchecked_asserts Size512 0 600).1 (by decide),
   (C10_new_unchecked_asserts Size512 0 5).2 ⟨0, 5⟩ (by decide)⟩

/-- `Address::new(x, 0)` for a `u32` sector is just `(x, 0)`. -/
theorem Address.new_zero (S : SectorSize) (x : Nat) (hx : x < U32) :
    Address.new S x 0 = (⟨x, 0⟩ : Address S) := by
  have h0 : Address.new S x (0 : Int) = Address.new S x ((0 : Nat) : Int) := rfl
  have harg : x * S.SIZE + 0 < U32 * S.SIZE := by
    have h1 : (x + 1) * S.SIZE ≤ U32 * S.SIZE := Nat.mul_le_mul_right _ hx
    have h2 : 0 < S.SIZE := S.size_pos
    rw [Nat.succ_mul] at h1
    omega
  rw [h0, Address.new_nat S x 0 harg]
  congr 1
  · rw [Nat.add_zero, Nat.mul_div_cancel _ S.size_pos]
  · rw [Nat.add_zero, Nat.mul_mod_left]

/-- C6 (amended): stepping first truncates the `usize` count to `u32`
(`c = count mod 2^32`); then stepping forward from a `u32` sector
yields sector `sector + c` with offset 0 when that fits a `u32` and no
result otherwise, and stepping backward yields sector `sector - c` with
offset 0 when `c ≤ sector` and no result otherwise — never a wrapped
sector. -/
theorem C6_step_semantics {S : SectorSize} (a : Address S) (count : Nat)
    (hs : a.sector < U32) :
    Address.forward_checked a count =
      (if a.sector + count % U32 < U32
       then some (⟨a.sector + count % U32, 0⟩ : Address S) else none)
    ∧ Address.backward_checked a count =
      (if count % U32 ≤ a.sector
       then some (⟨a.sector - count % U32, 0⟩ : Address S) else none) := by
  constructor
  · have hconv : Address.forward_checked a count =
        (if a.sector + count % U32 < U32
         then some (Address.new S (a.sector + count % U32) 0) else none) := rfl
    rw [hconv]
    by_cases h : a.sector + count % U32 < U32
    · rw [if_pos h, if_pos h, Address.new_zero S _ h]
    · rw [if_neg h, if_neg h]
  · have hconv : Address.backward_checked a count =
        (if count % U32 ≤ a.sector
         then some (Address.new S (a.sector - count % U32) 0) else none) := rfl
    rw [hconv]
    by_cases h : count % U32 ≤ a.sector
    · rw [if_pos h, if_pos h, Address.new_zero S _ (by omega)]
    · rw [if_neg h, if_neg h]

/-- C6 witness: stepping `(7, 3)` forward and backward by 5 on
`Size512` follows the characterization. -/
theorem C6_witness :
    Address.forward_checked (⟨7, 3⟩ : Address Size512) 5 =
      (if (7 : Nat) + 5 % U32 < U32
       then some (⟨7 + 5 % U32, 0⟩ : Address Size512) else none)
    ∧ Address.backward_checked (⟨7, 3⟩ : Address Size512) 5 =
      (if (5 : Nat) % U32 ≤ 7
       then some (⟨7 - 5 % U32, 0⟩ : Address Size512) else none) :=
  C6_step_semantics (⟨7, 3⟩ : Address Size512) 5 (by decide)

/-- C6 counterexample: the claim demands `None` for any `usize` count
that would push the sector past `u32::MAX` or below 0, however large;
but the source truncates `count as u32` first, so stepping forward from
sector 5 by `2^32` returns `Some (5, 0)` (not `None`), and stepping
backward from sector 0 by `2^32` returns `Some (0, 0)` (not `None`). -/
theorem C6_counterexample :
    Address.forward_checked (⟨5, 0⟩ : Address Size512) (2 ^ 32) = some ⟨5, 0⟩
    ∧ Address.backward_checked (⟨0, 0⟩ : Address Size512) (2 ^ 32) = some ⟨0, 0⟩ := by
  constructor
  · decide
  · decide

/-- C7 (amended): `find_inode` called with any record size other than
128 hits `unimplemented!` — an immediate panic, before any bounds check
or cast: the failure is a panic, not an error value returned through
the locator's `Result` type, and no record is ever materialized with a
guessed layout. -/
theorem C7_unsupported_inode_size {S : SectorSize} (v : Volume) (A : Address S)
    (sz : Nat) (h : sz ≠ Inode.size_of) :
    Inode.find_inode v A sz = PResult.panicked := by
  unfold Inode.find_inode
  rw [if_pos h]

/-- C7 witness: a size-100 inode request on a 4096-byte volume panics. -/
theorem C7_witness :
    Inode.find_inode (S := Size512) ⟨4096, fun _ => 0⟩ (⟨0, 0⟩ : Address Size512) 100
      = PResult.panicked :=
  C7_unsupported_inode_size ⟨4096, fun _ => 0⟩ (⟨0, 0⟩ : Address Size512) 100 (by decide)

/-- C7 counterexample: with size 64 the call panics (`unimplemented!`);
it does not surface an `UnsupportedRecordSize` failure through the
locator's result type as the claim states. -/
theorem C7_counterexample :
    Inode.find_inode (S := Size512) ⟨2048, fun _ => 0⟩ (⟨0, 0⟩ : Address Size512) 64
      = PResult.panicked
    ∧ (PResult.panicked : PResult Error (List Nat × Address Size512))
        ≠ PResult.error (Error.UnsupportedRecordSize 64) := by
  constructor
  · rfl
  · decide

/-- C1 (amended): for a volume of exactly `N` bytes and a start address
`A`, provided no 32-bit overflow occurs — `N < 2^32 * SIZE`,
`A.into_index() + 128 < 2^32 * SIZE`, and `SIZE ≤ 2^30` — each
single-record locator succeeds if and only if
`A.into_index() + R ≤ N` (`R = 32` for `find_descriptor`, `R = 128` for
`find_inode`), and otherwise fails with `AddressOutOfBounds` carrying
exactly the end address's sector, offset and sector size, where
`end = A + Address::from(R)`. -/
theorem C1_locator_bounds {S : SectorSize} (v : Volume) (A : Address S)
    (hL : S.LOG_SIZE ≤ 30) (hA : A.Valid)
    (hN : v.len < U32 * S.SIZE)
    (hidx : A.into_index + 128 < U32 * S.SIZE) :
    (((BlockGroupDescriptor.find_descriptor v A).isOk = true
        ↔ A.into_index + 32 ≤ v.len)
     ∧ (v.len < A.into_index + 32 →
        BlockGroupDescriptor.find_descriptor v A =
          PResult.error (Error.AddressOutOfBounds
            (A.add (Address.ofUsize S 32)).sector
            (A.add (Address.ofUsize S 32)).offset
            S.SIZE)))
    ∧ (((Inode.find_inode v A 128).isOk = true ↔ A.into_index + 128 ≤ v.len)
     ∧ (v.len < A.into_index + 128 →
        Inode.find_inode v A 128 =
          PResult.error (Error.AddressOutOfBounds
            (A.add (Address.ofUsize S 128)).sector
            (A.add (Address.ofUsize S 128)).offset
            S.SIZE))) := by
  obtain ⟨hd1, hd2⟩ :=
    BlockGroupDescriptor.find_descriptor_spec v A hL hA hN (by omega)
  obtain ⟨hi1, hi2⟩ := Inode.find_inode_spec v A hL hA hN hidx
  refine ⟨⟨?_, hd2⟩, ?_, hi2⟩
  · constructor
    · intro hok
      by_contra hcon
      rw [hd2 (by omega)] at hok
      simp [PResult.isOk] at hok
    · intro hfit
      rw [hd1 hfit]
      rfl
  · constructor
    · intro hok
      by_contra hcon
      rw [hi2 (by omega)] at hok
      simp [PResult.isOk] at hok
    · intro hfit
      rw [hi1 hfit]
      rfl

/-- C1 witness: on a 100-byte `Size512` volume starting at `(0, 0)`, a
descriptor fits (`32 ≤ 100`) and an inode does not (`128 > 100`),
failing with the out-of-bounds error built from `0 + from(128)`. -/
theorem C1_witness :
    ((BlockGroupDescriptor.find_descriptor (S := Size512) ⟨100, fun _ => 0⟩
        (⟨0, 0⟩ : Address Size512)).isOk = true
      ↔ (⟨0, 0⟩ : Address Size512).into_index + 32 ≤ 100)
    ∧ Inode.find_inode (S := Size512) ⟨100, fun _ => 0⟩ (⟨0, 0⟩ : Address Size512) 128
        = PResult.error (Error.AddressOutOfBounds
            ((⟨0, 0⟩ : Address Size512).add (Address.ofUsize Size512 128)).sector
            ((⟨0, 0⟩ : Address Size512).add (Address.ofUsize Size512 128)).offset
            Size512.SIZE) :=
  ⟨(C1_locator_bounds (S := Size512) ⟨100, fun _ => 0⟩ ⟨0, 0⟩ (by decide) (by decide)
      (by decide) (by decide)).1.1,
   (C1_locator_bounds (S := Size512) ⟨100, fun _ => 0⟩ ⟨0, 0⟩ (by decide) (by decide)
      (by decide) (by decide)).2.2 (by decide)⟩

/-- C1 counterexample: the claim as stated fails for start addresses
near sector `u32::MAX`: with `A = (4294967295, 500)` on a 1000-byte
`Size512` volume, `A.into_index() + 32 > 1000`, so the claim demands an
`AddressOutOfBounds` error carrying the end address; but
`A + Address::from(32)` wraps the 32-bit sector to `(0, 20)`, the bounds
check passes, and the call reaches the slice with a reversed range — a
panic, neither success nor the claimed error. `A` is an address the
constructor itself produces. -/
theorem C1_counterexample :
    Address.new Size512 4294967295 500 = (⟨4294967295, 500⟩ : Address Size512)
    ∧ 1000 < (⟨4294967295, 500⟩ : Address Size512).into_index + 32
    ∧ BlockGroupDescriptor.find_descriptor (S := Size512) ⟨1000, fun _ => 0⟩
        (⟨4294967295, 500⟩ : Address Size512) = PResult.panicked
    ∧ (PResult.panicked : PResult Error (List Nat × Address Size512))
        ≠ PResult.error (Error.AddressOutOfBounds 0 20 512) := by
  refine ⟨by decide, by decide, ?_, by decide⟩
  rfl

/-- C2 (amended): for a volume of exactly `N` bytes, a start address
`A` and a count `K`, provided no 32-bit overflow occurs —
`N < 2^32 * SIZE`, `A.into_index() + K*32 < 2^32 * SIZE`,
`SIZE ≤ 2^30` — `find_descriptor_table` fails as a whole with
`AddressOutOfBounds` (returning no partial vector) if and only if the
end of the last record `start + K*32` exceeds the volume length; on
success the vector holds the `K` records in ascending order of `i`, the
`i`-th being the 32 bytes read at `start + i*32`. -/
theorem C2_table_atomicity {S : SectorSize} (v : Volume) (A : Address S) (K : Nat)
    (hL : S.LOG_SIZE ≤ 30) (hA : A.Valid) (hN : v.len < U32 * S.SIZE)
    (hK : A.into_index + K * 32 < U32 * S.SIZE) :
    ((BlockGroupDescriptor.find_descriptor_table v A K).isOk = true
      ↔ A.into_index + K * 32 ≤ v.len)
    ∧ (v.len < A.into_index + K * 32 →
        BlockGroupDescriptor.find_descriptor_table v A K =
          PResult.error (Error.AddressOutOfBounds
            (A.add (Address.ofUsize S (K * 32))).sector
            (A.add (Address.ofUsize S (K * 32))).offset
            S.SIZE))
    ∧ (A.into_index + K * 32 ≤ v.len →
        BlockGroupDescriptor.find_descriptor_table v A K =
          PResult.ok ((List.range K).map fun i =>
            v.readBytes (A.into_index + i * 32) 32, A)) := by
  obtain ⟨h1, h2⟩ :=
    BlockGroupDescriptor.find_descriptor_table_spec v A K hL hA hN hK
  refine ⟨⟨?_, ?_⟩, h2, h1⟩
  · intro hok
    by_contra hcon
    rw [h2 (by omega)] at hok
    simp [PResult.isOk] at hok
  · intro hfit
    rw [h1 hfit]
    rfl

/-- C2 witness: the repository's own test case — 8 descriptors at
`(4, 0)` in a 4096-byte `Size512` volume — succeeds with the 8 reads at
`2048 + i*32` in ascending order. -/
theorem C2_witness :
    BlockGroupDescriptor.find_descriptor_table (S := Size512) ⟨4096, fun _ => 0⟩
      (⟨4, 0⟩ : Address Size512) 8 =
      PResult.ok ((List.range 8).map fun i =>
        Volume.readBytes ⟨4096, fun _ => 0⟩
          ((⟨4, 0⟩ : Address Size512).into_index + i * 32) 32,
        (⟨4, 0⟩ : Address Size512)) :=
  (C2_table_atomicity (S := Size512) ⟨4096, fun _ => 0⟩ ⟨4, 0⟩ 8 (by decide) (by decide)
    (by decide) (by decide)).2.2 (by decide)

/-- C2 counterexample: with `A = (4294967295, 490)`, `K = 1` on a
1000-byte `Size512` volume, the last record's end `A + 32` exceeds the
extent, so the claim demands failure with `AddressOutOfBounds`; but the
end address wraps the 32-bit sector to `(0, 10)`, the whole-table check
passes, and the iteration panics on a reversed slice instead of
returning the claimed error. -/
theorem C2_counterexample :
    1000 < (⟨4294967295, 490⟩ : Address Size512).into_index + 1 * 32
    ∧ BlockGroupDescriptor.find_descriptor_table (S := Size512) ⟨1000, fun _ => 0⟩
        (⟨4294967295, 490⟩ : Address Size512) 1 = PResult.panicked
    ∧ (PResult.panicked : PResult Error (List (List Nat) × Address Size512))
        ≠ PResult.error (Error.AddressOutOfBounds 0 10 512) := by
  refine ⟨by decide, ?_, by decide⟩
  rfl

/-- C8: evaluating `find_descriptor_table` at the failing input — one
descriptor at `(0, 0)` in a 4096-byte `Size512` volume. The call
succeeds but returns the start address `(0, 0)` as its address
component (the source returns the outer `offset` binding), while the
claim — and the spec's contiguous-iteration purpose — demand the end
address `start + count*32 = (0, 32)`. The single-record locators do
return the end address. -/
theorem C8_table_returns_start :
    BlockGroupDescriptor.find_descriptor_table (S := Size512) ⟨4096, fun _ => 0⟩
      (⟨0, 0⟩ : Address Size512) 1
      = PResult.ok ([Volume.readBytes ⟨4096, fun _ => 0⟩ 0 32], (⟨0, 0⟩ : Address Size512))
    ∧ ((⟨0, 0⟩ : Address Size512).add (Address.ofUsize Size512 (1 * 32)))
        = (⟨0, 32⟩ : Address Size512)
    ∧ (⟨0, 0⟩ : Address Size512) ≠ (⟨0, 32⟩ : Address Size512)
    ∧ BlockGroupDescriptor.find_descriptor (S := Size512) ⟨4096, fun _ => 0⟩
        (⟨0, 0⟩ : Address Size512)
      = PResult.ok (Volume.readBytes ⟨4096, fun _ => 0⟩ 0 32, (⟨0, 32⟩ : Address Size512)) := by
  refine ⟨?_, by decide, by decide, ?_⟩
  · rfl
  · rfl
